import Mathlib

/-!
# Verification of the SteamIdler idling-set scheduler

Shallow embedding of `src/SteamIdler/app.ts` (class `SteamIdlerManager` and its
helpers).  Network calls are modelled by an environment `Env` of oracles: each
oracle describes what the corresponding `fetch` would deliver (transport error,
non-OK HTTP status, or a payload already decoded to the shape the code reads
off the JSON / HTML).  JS `Set` objects are modelled as insertion-ordered
duplicate-free lists, JS `Map` objects as insertion-ordered association lists,
exceptions as `Except`.
-/

namespace SteamIdler

/-- Model of `interface BadgeInfo`/`CommunityBadgeInfo` plus the two alternative field
names (`card_drop_remaining`, `card_drop_count`) that `discoverGames` and
`refreshBadgeStatus` read via `??`-chains.  `hours_on_record` is parsed from
the community badge pages (`parseFloat` of a nonnegative decimal literal),
modelled as a rational. -/
structure Badge where
  appid : Nat
  cards_remaining : Option Int := none
  card_drop_remaining : Option Int := none
  card_drop_count : Option Int := none
  hours_on_record : Option ℚ := none
  deriving DecidableEq, Repr

/-- One entry of `GetOwnedGames` (`fetchOwned`): `{ appid, playtime_forever }`. -/
structure OwnedGame where
  appid : Nat
  playtime_forever : Nat
  deriving DecidableEq, Repr

/-- The per-app object of the store `appdetails` probe: `entry.success` and
`entry.data.categories` (`none` when `entry.data.categories` is not an array),
categories reduced to their numeric `id`s. -/
structure ProbeEntry where
  success : Bool
  categories : Option (List Nat)
  deriving DecidableEq, Repr

/-- Outcome of one `fetch`: the promise rejects (`transportError`), resolves
with `!resp.ok` (`httpError status`), or resolves with a decoded body. -/
inductive FetchResult (α : Type) where
  | transportError
  | httpError (status : Nat)
  | payload (body : α)
  deriving DecidableEq, Repr

/-- Events recorded during `scanAllCardCapable`: a capability-cache hit, a
network probe resolving to a classification, and a `fs.writeFileSync` of the
whole cache. -/
inductive ScanEvent where
  | hit (appid : Nat)
  | resolved (appid : Nat) (classification : Bool)
  | persist (snapshot : List (Nat × Bool))
  deriving DecidableEq, Repr

/-- Side effects issued towards the session collaborator. -/
inductive Effect where
  | gamesPlayed (ids : List Nat)
  | logOnAttempt
  deriving DecidableEq, Repr

/-- The network/disk environment a run sees.
  * `badgesResp`: body of `GetBadges`; outer `none` models
    `json?.response?.badges` not being an array, inner `none` a null/invalid
    array entry (dropped by `badges.filter(b => b && typeof b.appid === 'number')`).
  * `ownedResp`: body of `GetOwnedGames`, analogously.
  * `communityPages p`: the badge anchors parsed out of community page `p`
    (the regex scraping itself never throws, so its outcome is folded into
    the payload).
  * `probeResp a`: the store `appdetails` answer for app `a`
    (`payload none` models a missing `j?.[appid]` entry).
  * `diskCacheExists`/`diskCache`: the persisted capability-cache file
    (a parse failure is modelled by an empty list).
  * `manualIds`: the comma-separated appids the user would type when no
    API key is configured, already parsed. -/
structure Env where
  badgesResp : FetchResult (Option (List (Option Badge)))
  ownedResp : FetchResult (Option (List OwnedGame))
  communityPages : Nat → FetchResult (List Badge)
  probeResp : Nat → FetchResult (Option ProbeEntry)
  diskCacheExists : Bool
  diskCache : List (Nat × Bool)
  manualIds : List Nat

/-- The mutable fields of `SteamIdlerManager` the specified behaviour reads or
writes, with the session collaborator reduced to booleans (`connected` models
`!!this.client.steamID`, `hasSteamId` models `this.steamId64 !== undefined`,
`hasCookies` models `this.webCookies.length > 0`, the two timer flags model
whether the corresponding `setInterval` handle is armed). -/
structure IdlerState where
  currentIds : List Nat := []
  everRemaining : List Nat := []
  broadMode : Bool := false
  targetParallel : Nat := 20
  hasApiKey : Bool := true
  hasSteamId : Bool := true
  hasCookies : Bool := false
  storeCategoryCache : List (Nat × Bool) := []
  pendingPostCookieDiscovery : Bool := false
  running : Bool := false
  refreshTimerArmed : Bool := false
  connectivityTimerArmed : Bool := false
  restartTimerArmed : Bool := false
  connecting : Bool := false
  connected : Bool := true
  hasRefreshToken : Bool := true
  reconnectAttempts : Nat := 0
  deriving DecidableEq, Repr

/-! ## JS `Set` / `Map` primitives -/

/-- Model of `Set.add`: append iff not already present (insertion order preserved). -/
def setAdd (s : List Nat) (x : Nat) : List Nat :=
  if x ∈ s then s else s ++ [x]

/-- Model of `Array.from(new Set(l))`: deduplicate keeping first occurrences. -/
def dedup (l : List Nat) : List Nat :=
  l.foldl setAdd []

/-- Model of `Map.get` on the capability cache. -/
def lookupCache (c : List (Nat × Bool)) (a : Nat) : Option Bool :=
  (c.find? (fun p => p.1 = a)).map (·.2)

/-- Model of `Map.set` on the capability cache: overwrite in place or append. -/
def cacheSet (c : List (Nat × Bool)) (a : Nat) (v : Bool) : List (Nat × Bool) :=
  if (lookupCache c a).isSome then
    c.map (fun p => if p.1 = a then (a, v) else p)
  else c ++ [(a, v)]

/-- Model of `Map.get` on the appid → badge merge map of `discoverGames`. -/
def mapGet (m : List (Nat × Badge)) (k : Nat) : Option Badge :=
  (m.find? (fun p => p.1 = k)).map (·.2)

/-- Model of `Map.set` on the appid → badge merge map. -/
def mapSet (m : List (Nat × Badge)) (k : Nat) (v : Badge) : List (Nat × Badge) :=
  if (mapGet m k).isSome then
    m.map (fun p => if p.1 = k then (k, v) else p)
  else m ++ [(k, v)]

/-! ## Reward records and the candidate order -/

/-- Model of `(b as any).cards_remaining ?? (b as any).card_drop_remaining ?? (b as any).card_drop_count`. -/
def anyRem (b : Badge) : Option Int :=
  (b.cards_remaining.orElse fun _ => (b.card_drop_remaining.orElse fun _ => b.card_drop_count))

/-- Model of `typeof anyRem === 'number' && anyRem > 0`. -/
def hasPosRem (b : Badge) : Bool :=
  match anyRem b with
  | some v => decide (0 < v)
  | none => false

/-- The `{ appid, remaining, hours }` objects `discoverGames` builds from the
badges that still have remaining drops. -/
structure Detailed where
  appid : Nat
  remaining : Option Int
  hours : Option ℚ
  deriving DecidableEq, Repr

def toDetailed (b : Badge) : Detailed :=
  ⟨b.appid, anyRem b, b.hours_on_record⟩

/-- Model of `typeof a.hours === 'number' ? a.hours : -1`. -/
def hKey (d : Detailed) : ℚ :=
  d.hours.getD (-1)

/-- Model of `a.remaining || 0`. -/
def rKey (d : Detailed) : Int :=
  d.remaining.getD 0

/-- Holds when `a` sorts no later than `b` under the comparator of `discoverGames`
(`cmp(a,b) = hB - hA`, then `rB - rA`, then `a.appid - b.appid`; this is
`cmp(a,b) ≤ 0`). -/
def detLeB (a b : Detailed) : Bool :=
  if hKey a = hKey b then
    if rKey a = rKey b then decide (a.appid ≤ b.appid)
    else decide (rKey b < rKey a)
  else decide (hKey b < hKey a)

def detLe (a b : Detailed) : Prop := detLeB a b = true

instance : DecidableRel detLe := fun a b => instDecidableEqBool (detLeB a b) true

/-- Model of `withRemainingDetailed.sort(cmp)`. -/
def sortDetailed (l : List Detailed) : List Detailed :=
  l.insertionSort detLe

/-! ## Reward Source Adapters -/

/-- Model of `fetchBadges` (`GetBadges`): returns `[]` without a Steam id, throws on a
rejected fetch or `!resp.ok`, returns `[]` when `response.badges` is not an
array, else filters out null/invalid entries. -/
def fetchBadges (hasSteamId : Bool) (resp : FetchResult (Option (List (Option Badge)))) :
    Except String (List Badge) :=
  if hasSteamId = false then .ok []
  else
    match resp with
    | .transportError => .error "fetch rejected"
    | .httpError status => .error ("GetBadges HTTP " ++ toString status)
    | .payload none => .ok []
    | .payload (some entries) => .ok (entries.filterMap id)

/-- Model of `fetchOwned` (`GetOwnedGames`): same throwing/empty structure as
`fetchBadges`. -/
def fetchOwned (hasSteamId : Bool) (resp : FetchResult (Option (List OwnedGame))) :
    Except String (List OwnedGame) :=
  if hasSteamId = false then .ok []
  else
    match resp with
    | .transportError => .error "fetch rejected"
    | .httpError status => .error ("GetOwnedGames HTTP " ++ toString status)
    | .payload none => .ok []
    | .payload (some games) => .ok games

/-- Page loop of `fetchCommunityBadges`: up to 10 pages; any transport or HTTP
failure breaks out returning the results collected so far; a page without
anchors breaks; otherwise the page's parsed records are appended and the loop
continues while new entries keep arriving. -/
def cbLoop (pages : Nat → FetchResult (List Badge)) (page : Nat)
    (results : List Badge) (lastCount : Nat) : List Badge :=
  if 10 < page then results
  else
    match pages page with
    | .transportError => results
    | .httpError _ => results
    | .payload anchors =>
      if anchors.isEmpty then results
      else
        let results' := results ++ anchors
        if results'.length = lastCount then results'
        else cbLoop pages (page + 1) results' results'.length
  termination_by 11 - page

/-- Model of `fetchCommunityBadges`: `[]` without web cookies, else the page loop.
The per-anchor text matching (explicit zero marker, direct "N remaining",
earned − received) happens below this abstraction: the page oracle delivers
the already-parsed records. -/
def fetchCommunityBadges (hasCookies : Bool) (pages : Nat → FetchResult (List Badge)) :
    List Badge :=
  if hasCookies then cbLoop pages 1 [] 0 else []

/-- The community merge of `discoverGames`: API badges seed an appid-keyed map,
then each community badge overwrites `cards_remaining`/`hours_on_record` on
the existing entry (or a fresh `{ appid }` object). -/
def mergeCommunity (badges : List Badge) (cbs : List Badge) : List Badge :=
  let seeded := badges.foldl (fun m b => mapSet m b.appid b) []
  let merged := cbs.foldl (fun m cb =>
    let existing := (mapGet m cb.appid).getD { appid := cb.appid }
    let upd1 := match cb.cards_remaining with
      | some v => { existing with cards_remaining := some v }
      | none => existing
    let upd2 := match cb.hours_on_record with
      | some h => { upd1 with hours_on_record := some h }
      | none => upd1
    mapSet m cb.appid upd2) seeded
  merged.map (·.2)

/-! ## Capability Cache and the broad-mode scan (`scanAllCardCapable`) -/

/-- The `overallCap = 1200 * 2` probe budget. -/
def overallCap : Nat := 1200 * 2

/-- The per-batch concurrency window. -/
def concurrency : Nat := 6

/-- One `probe(appid)`: a cache hit short-circuits (pushing the appid when the
cached classification is positive); a miss issues the store request, and a
rejected fetch, non-OK response, missing entry, `success: false` or missing
categories array all classify the app as not-capable; otherwise the app is
capable iff category id 29 is present.  The classification is written to the
in-memory cache via `Map.set`. -/
def probeOne (env : Env) (st : List (Nat × Bool) × List Nat × List ScanEvent) (appid : Nat) :
    List (Nat × Bool) × List Nat × List ScanEvent :=
  let (cache, found, evs) := st
  match lookupCache cache appid with
  | some v => (cache, if v then found ++ [appid] else found, evs ++ [.hit appid])
  | none =>
    match env.probeResp appid with
    | .payload (some e) =>
      match e.success, e.categories with
      | true, some cats =>
        let hasCards := cats.any (fun c => c = 29)
        (cacheSet cache appid hasCards,
         if hasCards then found ++ [appid] else found,
         evs ++ [.resolved appid hasCards])
      | _, _ => (cacheSet cache appid false, found, evs ++ [.resolved appid false])
    | _ => (cacheSet cache appid false, found, evs ++ [.resolved appid false])

/-- The `runBatch` recursion: probe up to `concurrency` ids per batch, bounded
by the overall cap, and recurse while fewer than `limitNeeded` capable ids are
found and both the ordered list and the budget are unexhausted.
(The six probes of a real batch run concurrently; their cache/found writes are
order-independent in membership, and the model fixes the in-batch order.)
`fuel` bounds the number of batches for structural recursion; every batch
consumes at least one element of `rem`, so the caller's `fuel = rem.length`
never runs out before the loop's own stop conditions. -/
def scanGo (env : Env) (limitNeeded : Nat) :
    Nat → List (Nat × Bool) → List Nat → List ScanEvent → List Nat → Nat →
      List (Nat × Bool) × List Nat × List ScanEvent
  | 0, cache, found, evs, _, _ => (cache, found, evs)
  | fuel + 1, cache, found, evs, rem, idx =>
    let k := min concurrency (overallCap - idx)
    let batch := rem.take k
    if batch.isEmpty then (cache, found, evs)
    else
      let st := batch.foldl (probeOne env) (cache, found, evs)
      if (st.2.1.length < limitNeeded ∧ ¬ (rem.drop k).isEmpty ∧
          idx + batch.length < overallCap) then
        scanGo env limitNeeded fuel st.1 st.2.1 st.2.2 (rem.drop k) (idx + batch.length)
      else st

/-- Model of `scanAllCardCapable(apiKey, limitNeeded)`: fetch the owned catalog (its
exceptions propagate to the caller), return `[]` when it is empty, lazily load
the persisted cache when the in-memory map is empty, order the catalog
never-played first, then low-playtime (`< 30` minutes), then the rest, run the
batched probe loop, and finally persist the whole cache once (the
`fs.writeFileSync` after the scan, recorded as a `persist` event). -/
def scanAllCardCapable (s : IdlerState) (env : Env) (limitNeeded : Nat) :
    Except String (IdlerState × List Nat × List ScanEvent) :=
  match fetchOwned s.hasSteamId env.ownedResp with
  | .error e => .error e
  | .ok owned =>
    if owned.isEmpty then .ok (s, [], [])
    else
      let cache0 :=
        if s.storeCategoryCache.isEmpty ∧ env.diskCacheExists then env.diskCache
        else s.storeCategoryCache
      let never := owned.filter (fun g => g.playtime_forever = 0)
      let low := owned.filter (fun g => 0 < g.playtime_forever ∧ g.playtime_forever < 30)
      let rest := owned.filter (fun g => 30 ≤ g.playtime_forever)
      let ordered := (never ++ low ++ rest).map (·.appid)
      let res := scanGo env limitNeeded ordered.length cache0 [] [] ordered 0
      .ok ({ s with storeCategoryCache := res.1 }, res.2.1, res.2.2 ++ [.persist res.1])

/-! ## Choosing and discovery -/

/-- Model of `this.options.targetParallel || 20` (`0` is falsy in JS). -/
def effTarget (t : Nat) : Nat :=
  if t = 0 then 20 else t

/-- Loop body of `chooseNextGames`: walk the candidates, keep those not already
idling, and break once `limit` are chosen (note the push happens before the
length check, exactly as in the source). -/
def chooseGo (cur : List Nat) (limit : Nat) : List Nat → List Nat → List Nat
  | [], chosen => chosen
  | id :: rest, chosen =>
    if id ∈ cur then chooseGo cur limit rest chosen
    else if limit ≤ chosen.length + 1 then chosen ++ [id]
    else chooseGo cur limit rest (chosen ++ [id])

/-- Model of `chooseNextGames(candidates, limit)`. -/
def chooseNextGames (cur : List Nat) (candidates : List Nat) (limit : Nat) : List Nat :=
  chooseGo cur limit candidates []

/-- The community-merge stage of `discoverGames`: when the API badges expose no
positive remaining count, scrape the community pages (if cookies are present)
and merge them over the API badges; without cookies, set
`pendingPostCookieDiscovery`. -/
def mergeStage (s : IdlerState) (env : Env) (badges0 : List Badge) :
    IdlerState × List Badge :=
  let apiRemainingCount := (badges0.filter hasPosRem).length
  if apiRemainingCount = 0 then
    if s.hasCookies then
      let cb := fetchCommunityBadges s.hasCookies env.communityPages
      if cb.isEmpty then (s, badges0) else (s, mergeCommunity badges0 cb)
    else ({ s with pendingPostCookieDiscovery := true }, badges0)
  else (s, badges0)

/-- The sorted direct hits of a discovery cycle (appids of badges with a
positive remaining count, ordered by the comparator). -/
def directOf (s : IdlerState) (env : Env) (badges0 : List Badge) : List Nat :=
  (sortDetailed (((mergeStage s env badges0).2.filter hasPosRem).map toDetailed)).map (·.appid)

/-- The `broadMode` latch of `discoverGames`: enabled exactly when the direct
hits are empty, and never disabled. -/
def broadFlag (s1 : IdlerState) (direct : List Nat) : IdlerState :=
  if direct.isEmpty ∧ ¬ s1.broadMode then { s1 with broadMode := true } else s1

/-- Model of `discoverGames()`: returns the updated state, the deduplicated candidate
list, whether the broad scan was invoked, and the scan's events.  A throw from
`fetchBadges` is caught leaving `direct = []`; a throw from the broad scan
(i.e. from `fetchOwned`) is caught leaving `direct` at the sorted direct hits.
Without an API key the manual id list is used. -/
def discoverGames (s : IdlerState) (env : Env) :
    IdlerState × List Nat × Bool × List ScanEvent :=
  if s.hasApiKey then
    match fetchBadges s.hasSteamId env.badgesResp with
    | .error _ => (s, [], false, [])
    | .ok badges0 =>
      let direct := directOf s env badges0
      let s2 := broadFlag (mergeStage s env badges0).1 direct
      if direct.length < s.targetParallel ∧ s2.broadMode then
        match scanAllCardCapable s2 env (s.targetParallel - direct.length) with
        | .error _ => (s2, dedup direct, true, [])
        | .ok (s3, extra, evs) => (s3, dedup (extra.foldl setAdd direct), true, evs)
      else (s2, dedup direct, false, [])
  else (s, dedup env.manualIds, false, [])

/-! ## The periodic refresh (`refreshBadgeStatus`) -/

/-- Shared shape of the one-pass loop building `remainingSet` and extending
`everRemaining`: add every appid whose remaining-count field chain is a
positive number. -/
def posFold (acc : List Nat) (badges : List Badge) : List Nat :=
  badges.foldl (fun r b => if hasPosRem b then setAdd r b.appid else r) acc

/-- The `remainingSet` of a refresh cycle. -/
def remainingList (badges : List Badge) : List Nat :=
  posFold [] badges

/-- State of `everRemaining` after the refresh loop extended it. -/
def updateEver (ever : List Nat) (badges : List Badge) : List Nat :=
  posFold ever badges

/-- The positive-remaining set a refresh cycle observes (empty when the badge
fetch throws — the cycle is then a no-op). -/
def refreshPositives (s : IdlerState) (env : Env) : List Nat :=
  match fetchBadges s.hasSteamId env.badgesResp with
  | .error _ => []
  | .ok badges => remainingList badges

/-- The survival test of the removal loop: an id is deleted exactly when it is
in (the updated) `everRemaining` and absent from `remainingSet`. -/
def keepPred (ever rem : List Nat) (id : Nat) : Bool :=
  !(decide (id ∈ ever) && !(decide (id ∈ rem)))

/-- The top-up stage of a refresh cycle: re-discover and add up to `needed`
previously-unused candidates to the Active Set. -/
def refreshTopUp (s1 : IdlerState) (env : Env) (needed : Nat) : IdlerState :=
  let d := discoverGames s1 env
  let chosen := chooseNextGames d.1.currentIds d.2.1 needed
  { d.1 with currentIds := chosen.foldl setAdd d.1.currentIds }

/-- Model of `refreshBadgeStatus()`: no-op without an API key or Steam id; a throw from
the badge fetch is caught leaving the state unchanged.  Otherwise: extend
`everRemaining` with the fresh positives, remove every currently idled id that
is in `everRemaining` but not in `remainingSet`, and if the set fell below the
target, top it up from a fresh discovery.  (`applyIdling` and the
community-hours restart heuristic only issue `gamesPlayed` effects and never
touch `currentIds`; effects are omitted here.) -/
def refreshBadgeStatus (s : IdlerState) (env : Env) : IdlerState :=
  if s.hasApiKey = false ∨ s.hasSteamId = false then s
  else
    match fetchBadges s.hasSteamId env.badgesResp with
    | .error _ => s
    | .ok badges =>
      let ever' := updateEver s.everRemaining badges
      let rem := remainingList badges
      let cur' := s.currentIds.filter (keepPred ever' rem)
      let s1 := { s with everRemaining := ever', currentIds := cur' }
      if cur'.length < effTarget s.targetParallel then
        refreshTopUp s1 env (effTarget s.targetParallel - cur'.length)
      else s1

/-! ## Lifecycle: start, stop, reconnect, timers -/

/-- Model of `applyIdling`'s declared list: the Active Set truncated to the Steam
display limit of 32. -/
def idleList (cur : List Nat) : List Nat :=
  cur.take 32

/-- Model of `startLoop()`: (re)arm the refresh interval and the 10-second connectivity
monitor; the separate restart monitor is cleared and never re-armed. -/
def startLoopModel (s : IdlerState) : IdlerState :=
  { s with refreshTimerArmed := true, connectivityTimerArmed := true,
           restartTimerArmed := false }

/-- Model of `start()`: once only; discover, stop early when no candidates, otherwise
add up to `targetParallel || 20` unused candidates, declare the set, and arm
the timers. -/
def start (s : IdlerState) (env : Env) : IdlerState × List Effect :=
  if s.running then (s, [])
  else
    let s0 := { s with running := true }
    let d := discoverGames s0 env
    if d.2.1.isEmpty then (d.1, [])
    else
      let initial := chooseNextGames d.1.currentIds d.2.1 (effTarget d.1.targetParallel)
      let s2 := { d.1 with currentIds := initial.foldl setAdd d.1.currentIds }
      (startLoopModel s2, [.gamesPlayed (idleList s2.currentIds)])

/-- Model of `stop()`: clear the refresh interval and the (unused) restart monitor,
empty the Active Set, declare the empty list.  The connectivity monitor is
not touched. -/
def stop (s : IdlerState) : IdlerState × List Effect :=
  ({ s with running := false, refreshTimerArmed := false,
            currentIds := [], restartTimerArmed := false },
   [.gamesPlayed []])

/-- Model of `manualReconnect()`: bail without a stored refresh token or while a logOn
attempt is already in flight; otherwise issue `client.logOn` and register a
`loggedOn` handler. -/
def manualReconnect (s : IdlerState) : IdlerState × List Effect :=
  if s.hasRefreshToken = false then (s, [])
  else if s.connecting then (s, [])
  else (s, [.logOnAttempt])

/-- The `loggedOn` handler registered by `manualReconnect`: reset the guards,
refresh the Steam id from the live session, and re-declare the held Active Set
via `applyIdling` — no discovery, no ranking. -/
def manualReconnectSuccess (s : IdlerState) : IdlerState × List Effect :=
  ({ s with connecting := false, reconnectAttempts := 0,
            connected := true, hasSteamId := true },
   [.gamesPlayed (idleList s.currentIds)])

/-- One tick of the 10-second connectivity monitor: if disconnected and no
logOn attempt is in flight, quietly attempt a manual reconnect. -/
def connectivityTick (s : IdlerState) : IdlerState × List Effect :=
  if s.connectivityTimerArmed then
    if s.connected then (s, [])
    else if s.connecting then (s, [])
    else manualReconnect s
  else (s, [])

/-- The refresh interval from the side of reentrancy: `inFlight` counts
`refreshBadgeStatus` bodies that have started and not yet completed.  The
interval callback of `startLoop` is `console.log(...); this.refreshBadgeStatus();`
— the async call is neither awaited nor guarded by any flag (the class defines
no reentrancy flag for the refresh), so a tick unconditionally begins another
body. -/
structure RefreshLoop where
  inFlight : Nat
  deriving DecidableEq, Repr

def onRefreshTick (L : RefreshLoop) : RefreshLoop :=
  { L with inFlight := L.inFlight + 1 }

/-! ## Event counting helpers -/

def isResolvedEvent : ScanEvent → Bool
  | .resolved _ _ => true
  | _ => false

def isPersistEvent : ScanEvent → Bool
  | .persist _ => true
  | _ => false

def countResolved (evs : List ScanEvent) : Nat :=
  (evs.filter isResolvedEvent).length

def countPersist (evs : List ScanEvent) : Nat :=
  (evs.filter isPersistEvent).length

/-! ## The ordering the spec describes for direct hits -/

/-- The secondary signal as the spec reads it: hours on record, with a missing
signal ranked lowest (`⊥`). -/
def specHours (d : Detailed) : WithBot ℚ :=
  match d.hours with
  | some q => (q : WithBot ℚ)
  | none => ⊥

/-- Modelled from the spec's ordering words: `a` precedes `b` when its
secondary signal is strictly higher (missing ranked lowest), or signals tie
and its remaining count is strictly higher, or both tie and its application id
is no larger. -/
def specLe (a b : Detailed) : Prop :=
  specHours b < specHours a ∨
    (specHours a = specHours b ∧
      (rKey b < rKey a ∨ (rKey a = rKey b ∧ a.appid ≤ b.appid)))

/-- Hours parsed from the community pages are nonnegative (the source regex
matches an unsigned decimal literal). -/
def nonnegHours (d : Detailed) : Prop :=
  ∀ q, d.hours = some q → 0 ≤ q

/-! ## Helper lemmas -/

theorem mem_setAdd {s : List Nat} {x a : Nat} : a ∈ setAdd s x ↔ a ∈ s ∨ a = x := by
  unfold setAdd
  split
  · rename_i h
    constructor
    · exact Or.inl
    · rintro (h1 | rfl)
      · exact h1
      · exact h
  · simp

theorem mem_foldl_setAdd {a : Nat} :
    ∀ (l s : List Nat), a ∈ s → a ∈ l.foldl setAdd s := by
  intro l
  induction l with
  | nil => intro s h; exact h
  | cons x xs ih =>
    intro s h
    exact ih (setAdd s x) (mem_setAdd.mpr (Or.inl h))

theorem length_setAdd (s : List Nat) (x : Nat) : (setAdd s x).length ≤ s.length + 1 := by
  unfold setAdd
  split <;> simp

theorem length_foldl_setAdd :
    ∀ (l s : List Nat), (l.foldl setAdd s).length ≤ s.length + l.length := by
  intro l
  induction l with
  | nil => intro s; simp
  | cons x xs ih =>
    intro s
    have h1 := ih (setAdd s x)
    have h2 := length_setAdd s x
    simp only [List.foldl_cons, List.length_cons]
    omega

theorem chooseGo_length {cur : List Nat} {limit : Nat} :
    ∀ (cands chosen : List Nat), chosen.length < limit →
      (chooseGo cur limit cands chosen).length ≤ limit := by
  intro cands
  induction cands with
  | nil => intro chosen h; exact Nat.le_of_lt h
  | cons id rest ih =>
    intro chosen h
    unfold chooseGo
    split
    · exact ih chosen h
    · split
      · rename_i hlim
        simp only [List.length_append, List.length_cons, List.length_nil]
        omega
      · rename_i hlim
        exact ih (chosen ++ [id]) (by simp; omega)

theorem chooseNextGames_length {cur cands : List Nat} {limit : Nat} (h : 0 < limit) :
    (chooseNextGames cur cands limit).length ≤ limit :=
  chooseGo_length cands [] (by simpa using h)

theorem mem_posFold {a : Nat} :
    ∀ (bs : List Badge) (acc : List Nat),
      a ∈ posFold acc bs ↔ a ∈ acc ∨ ∃ b ∈ bs, hasPosRem b = true ∧ a = b.appid := by
  intro bs
  induction bs with
  | nil => intro acc; simp [posFold]
  | cons b rest ih =>
    intro acc
    unfold posFold at ih ⊢
    simp only [List.foldl_cons]
    by_cases hb : hasPosRem b
    · rw [if_pos hb, ih (setAdd acc b.appid)]
      simp only [mem_setAdd, List.mem_cons]
      constructor
      · rintro ((h | rfl) | ⟨c, hc, hpc, rfl⟩)
        · exact Or.inl h
        · exact Or.inr ⟨b, Or.inl rfl, hb, rfl⟩
        · exact Or.inr ⟨c, Or.inr hc, hpc, rfl⟩
      · rintro (h | ⟨c, (rfl | hc), hpc, rfl⟩)
        · exact Or.inl (Or.inl h)
        · exact Or.inl (Or.inr rfl)
        · exact Or.inr ⟨c, hc, hpc, rfl⟩
    · rw [if_neg hb, ih acc]
      simp only [List.mem_cons]
      constructor
      · rintro (h | ⟨c, hc, hpc, rfl⟩)
        · exact Or.inl h
        · exact Or.inr ⟨c, Or.inr hc, hpc, rfl⟩
      · rintro (h | ⟨c, (rfl | hc), hpc, rfl⟩)
        · exact Or.inl h
        · exact absurd hpc (by simpa using hb)
        · exact Or.inr ⟨c, hc, hpc, rfl⟩

theorem mem_updateEver {a : Nat} {ever : List Nat} {bs : List Badge} :
    a ∈ updateEver ever bs ↔ a ∈ ever ∨ a ∈ remainingList bs := by
  unfold updateEver remainingList
  rw [mem_posFold, mem_posFold]
  simp

theorem lookupCache_append_of_some {c : List (Nat × Bool)} {a : Nat} {v : Bool}
    (l : List (Nat × Bool)) (h : lookupCache c a = some v) :
    lookupCache (c ++ l) a = some v := by
  unfold lookupCache at h ⊢
  rw [List.find?_append]
  cases hf : c.find? (fun p => p.1 = a) with
  | none => rw [hf] at h; simp at h
  | some p => rw [hf] at h; simpa using h

theorem cacheSet_of_none {c : List (Nat × Bool)} {a : Nat} (v : Bool)
    (h : lookupCache c a = none) : cacheSet c a v = c ++ [(a, v)] := by
  simp [cacheSet, h]

theorem lookupCache_append_single_self {c : List (Nat × Bool)} {a : Nat} (v : Bool)
    (h : lookupCache c a = none) : lookupCache (c ++ [(a, v)]) a = some v := by
  unfold lookupCache at h ⊢
  rw [List.find?_append]
  cases hf : c.find? (fun p => p.1 = a) with
  | none => simp
  | some p => rw [hf] at h; simp at h

theorem lookupCache_append_single_other {c : List (Nat × Bool)} {a b : Nat} (v : Bool)
    (hne : a ≠ b) : lookupCache (c ++ [(b, v)]) a = lookupCache c a := by
  unfold lookupCache
  rw [List.find?_append]
  cases hf : c.find? (fun p => p.1 = a) with
  | none => simp [Ne.symm hne]
  | some p => simp

/-- Shape of one probe: a cache hit leaves the cache alone and records a `hit`
event; a miss appends a fresh classification and records a `resolved` event;
in both cases the appid is appended to `found` iff the classification is
positive. -/
theorem probeOne_shape (env : Env) (st : List (Nat × Bool) × List Nat × List ScanEvent)
    (a : Nat) :
    (∃ v, lookupCache st.1 a = some v ∧
      probeOne env st a = (st.1, (if v then st.2.1 ++ [a] else st.2.1), st.2.2 ++ [.hit a])) ∨
    (∃ w, lookupCache st.1 a = none ∧
      probeOne env st a =
        (st.1 ++ [(a, w)], (if w then st.2.1 ++ [a] else st.2.1), st.2.2 ++ [.resolved a w])) := by
  obtain ⟨cache, found, evs⟩ := st
  simp only [probeOne]
  cases hl : lookupCache cache a with
  | some v =>
    left
    exact ⟨v, rfl, rfl⟩
  | none =>
    right
    cases hp : env.probeResp a with
    | transportError => exact ⟨false, rfl, by simp [cacheSet_of_none false hl]⟩
    | httpError status => exact ⟨false, rfl, by simp [cacheSet_of_none false hl]⟩
    | payload body =>
      cases body with
      | none => exact ⟨false, rfl, by simp [cacheSet_of_none false hl]⟩
      | some e =>
        obtain ⟨esucc, ecats⟩ := e
        cases esucc with
        | false =>
          cases ecats with
          | none => exact ⟨false, rfl, by simp [cacheSet_of_none false hl]⟩
          | some cats => exact ⟨false, rfl, by simp [cacheSet_of_none false hl]⟩
        | true =>
          cases ecats with
          | none => exact ⟨false, rfl, by simp [cacheSet_of_none false hl]⟩
          | some cats =>
            exact ⟨cats.any (fun c => c = 29), rfl, by simp [cacheSet_of_none _ hl]⟩

theorem probeOne_events_len (env : Env) (st : List (Nat × Bool) × List Nat × List ScanEvent)
    (a : Nat) : ((probeOne env st a).2.2).length = st.2.2.length + 1 := by
  rcases probeOne_shape env st a with ⟨v, _, he⟩ | ⟨w, _, he⟩ <;> simp [he]

theorem probeOne_cache_preserve {env : Env} {st : List (Nat × Bool) × List Nat × List ScanEvent}
    {b : Nat} {a : Nat} {v : Bool} (h : lookupCache st.1 a = some v) :
    lookupCache (probeOne env st b).1 a = some v := by
  rcases probeOne_shape env st b with ⟨u, _, he⟩ | ⟨w, hn, he⟩
  · rw [he]; exact h
  · rw [he]
    exact lookupCache_append_of_some _ h

theorem probeOne_found_mem {env : Env} {st : List (Nat × Bool) × List Nat × List ScanEvent}
    {b a : Nat} (h : a ∈ st.2.1) : a ∈ (probeOne env st b).2.1 := by
  rcases probeOne_shape env st b with ⟨u, _, he⟩ | ⟨w, _, he⟩ <;>
    · rw [he]
      dsimp only
      split <;> simp [h]

theorem probeOne_resolved_mem {env : Env} {st : List (Nat × Bool) × List Nat × List ScanEvent}
    {b a : Nat} {v : Bool} (h : ScanEvent.resolved a v ∈ (probeOne env st b).2.2) :
    ScanEvent.resolved a v ∈ st.2.2 ∨ lookupCache (probeOne env st b).1 a = some v := by
  rcases probeOne_shape env st b with ⟨u, hu, he⟩ | ⟨w, hn, he⟩
  · rw [he] at h
    simp only [List.mem_append, List.mem_singleton] at h
    rcases h with h | h
    · exact Or.inl h
    · cases h
  · rw [he] at h ⊢
    simp only [List.mem_append, List.mem_singleton] at h
    rcases h with h | h
    · exact Or.inl h
    · obtain ⟨rfl, rfl⟩ : a = b ∧ v = w := by
        cases h; exact ⟨rfl, rfl⟩
      exact Or.inr (lookupCache_append_single_self _ hn)

theorem probeOne_resolved_of_cached {env : Env}
    {st : List (Nat × Bool) × List Nat × List ScanEvent} {b a : Nat} {u : Bool} {v : Bool}
    (hc : lookupCache st.1 a = some u)
    (h : ScanEvent.resolved a v ∈ (probeOne env st b).2.2) :
    ScanEvent.resolved a v ∈ st.2.2 := by
  rcases probeOne_shape env st b with ⟨w, hw, he⟩ | ⟨w, hn, he⟩
  · rw [he] at h
    simp only [List.mem_append, List.mem_singleton] at h
    rcases h with h | h
    · exact h
    · cases h
  · rw [he] at h
    simp only [List.mem_append, List.mem_singleton] at h
    rcases h with h | h
    · exact h
    · obtain ⟨rfl, rfl⟩ : a = b ∧ v = w := by
        cases h; exact ⟨rfl, rfl⟩
      rw [hc] at hn
      cases hn

theorem probeOne_excluded {env : Env} {st : List (Nat × Bool) × List Nat × List ScanEvent}
    {b a : Nat} (hc : lookupCache st.1 a = some false) (hf : a ∉ st.2.1) :
    a ∉ (probeOne env st b).2.1 ∧ lookupCache (probeOne env st b).1 a = some false := by
  refine ⟨?_, probeOne_cache_preserve hc⟩
  rcases probeOne_shape env st b with ⟨u, hu, he⟩ | ⟨w, hn, he⟩
  · rw [he]
    dsimp only
    by_cases hab : a = b
    · subst hab
      rw [hc] at hu
      cases hu
      simpa using hf
    · split <;> simp [hf, hab]
  · rw [he]
    dsimp only
    by_cases hab : a = b
    · subst hab
      rw [hc] at hn
      cases hn
    · split <;> simp [hf, hab]

theorem probeOne_no_persist (env : Env) (st : List (Nat × Bool) × List Nat × List ScanEvent)
    (a : Nat) : countPersist (probeOne env st a).2.2 = countPersist st.2.2 := by
  rcases probeOne_shape env st a with ⟨v, _, he⟩ | ⟨w, _, he⟩ <;>
    simp [he, countPersist, isPersistEvent]

theorem foldl_probeOne_events_len (env : Env) :
    ∀ (batch : List Nat) (st : List (Nat × Bool) × List Nat × List ScanEvent),
      ((batch.foldl (probeOne env) st).2.2).length = st.2.2.length + batch.length := by
  intro batch
  induction batch with
  | nil => intro st; simp
  | cons a rest ih =>
    intro st
    simp only [List.foldl_cons, List.length_cons]
    rw [ih, probeOne_events_len]
    omega

theorem foldl_probeOne_cache_preserve (env : Env) {a : Nat} {v : Bool} :
    ∀ (batch : List Nat) (st : List (Nat × Bool) × List Nat × List ScanEvent),
      lookupCache st.1 a = some v →
      lookupCache ((batch.foldl (probeOne env) st)).1 a = some v := by
  intro batch
  induction batch with
  | nil => intro st h; exact h
  | cons b rest ih =>
    intro st h
    exact ih _ (probeOne_cache_preserve h)

theorem foldl_probeOne_found_mem (env : Env) {a : Nat} :
    ∀ (batch : List Nat) (st : List (Nat × Bool) × List Nat × List ScanEvent),
      a ∈ st.2.1 → a ∈ (batch.foldl (probeOne env) st).2.1 := by
  intro batch
  induction batch with
  | nil => intro st h; exact h
  | cons b rest ih =>
    intro st h
    exact ih _ (probeOne_found_mem h)

theorem foldl_probeOne_resolved (env : Env) {a : Nat} {v : Bool} :
    ∀ (batch : List Nat) (st : List (Nat × Bool) × List Nat × List ScanEvent),
      ScanEvent.resolved a v ∈ (batch.foldl (probeOne env) st).2.2 →
      ScanEvent.resolved a v ∈ st.2.2 ∨
        lookupCache (batch.foldl (probeOne env) st).1 a = some v := by
  intro batch
  induction batch with
  | nil => intro st h; exact Or.inl h
  | cons b rest ih =>
    intro st h
    rcases ih _ h with h1 | h1
    · rcases probeOne_resolved_mem h1 with h2 | h2
      · exact Or.inl h2
      · exact Or.inr (foldl_probeOne_cache_preserve env rest _ h2)
    · exact Or.inr h1

theorem foldl_probeOne_resolved_of_cached (env : Env) {a : Nat} {u v : Bool} :
    ∀ (batch : List Nat) (st : List (Nat × Bool) × List Nat × List ScanEvent),
      lookupCache st.1 a = some u →
      ScanEvent.resolved a v ∈ (batch.foldl (probeOne env) st).2.2 →
      ScanEvent.resolved a v ∈ st.2.2 := by
  intro batch
  induction batch with
  | nil => intro st _ h; exact h
  | cons b rest ih =>
    intro st hc h
    exact probeOne_resolved_of_cached hc (ih _ (probeOne_cache_preserve hc) h)

theorem foldl_probeOne_excluded (env : Env) {a : Nat} :
    ∀ (batch : List Nat) (st : List (Nat × Bool) × List Nat × List ScanEvent),
      lookupCache st.1 a = some false → a ∉ st.2.1 →
      a ∉ (batch.foldl (probeOne env) st).2.1 ∧
        lookupCache (batch.foldl (probeOne env) st).1 a = some false := by
  intro batch
  induction batch with
  | nil => intro st hc hf; exact ⟨hf, hc⟩
  | cons b rest ih =>
    intro st hc hf
    obtain ⟨hf1, hc1⟩ := probeOne_excluded hc hf
    exact ih _ hc1 hf1

theorem foldl_probeOne_no_persist (env : Env) :
    ∀ (batch : List Nat) (st : List (Nat × Bool) × List Nat × List ScanEvent),
      countPersist (batch.foldl (probeOne env) st).2.2 = countPersist st.2.2 := by
  intro batch
  induction batch with
  | nil => intro st; rfl
  | cons b rest ih =>
    intro st
    simp only [List.foldl_cons]
    rw [ih, probeOne_no_persist]

theorem scanGo_no_persist (env : Env) (limit : Nat) :
    ∀ (fuel : Nat) (cache : List (Nat × Bool)) (found : List Nat) (evs : List ScanEvent)
      (rem : List Nat) (idx : Nat),
      countPersist (scanGo env limit fuel cache found evs rem idx).2.2 = countPersist evs := by
  intro fuel
  induction fuel with
  | zero => intro cache found evs rem idx; rfl
  | succ fuel ih =>
    intro cache found evs rem idx
    rw [scanGo]
    dsimp only
    split
    · rfl
    · split
      · rw [ih]
        exact foldl_probeOne_no_persist env _ _
      · exact foldl_probeOne_no_persist env _ _

theorem scanGo_cache_preserve (env : Env) (limit : Nat) {a : Nat} {v : Bool} :
    ∀ (fuel : Nat) (cache : List (Nat × Bool)) (found : List Nat) (evs : List ScanEvent)
      (rem : List Nat) (idx : Nat),
      lookupCache cache a = some v →
      lookupCache (scanGo env limit fuel cache found evs rem idx).1 a = some v := by
  intro fuel
  induction fuel with
  | zero => intro cache found evs rem idx h; exact h
  | succ fuel ih =>
    intro cache found evs rem idx h
    rw [scanGo]
    dsimp only
    split
    · exact h
    · split
      · exact ih _ _ _ _ _ (foldl_probeOne_cache_preserve env _ _ h)
      · exact foldl_probeOne_cache_preserve env _ _ h

theorem scanGo_found_mem (env : Env) (limit : Nat) {a : Nat} :
    ∀ (fuel : Nat) (cache : List (Nat × Bool)) (found : List Nat) (evs : List ScanEvent)
      (rem : List Nat) (idx : Nat),
      a ∈ found → a ∈ (scanGo env limit fuel cache found evs rem idx).2.1 := by
  intro fuel
  induction fuel with
  | zero => intro cache found evs rem idx h; exact h
  | succ fuel ih =>
    intro cache found evs rem idx h
    rw [scanGo]
    dsimp only
    split
    · exact h
    · split
      · exact ih _ _ _ _ _ (foldl_probeOne_found_mem env _ _ h)
      · exact foldl_probeOne_found_mem env _ _ h

theorem scanGo_resolved (env : Env) (limit : Nat) {a : Nat} {v : Bool} :
    ∀ (fuel : Nat) (cache : List (Nat × Bool)) (found : List Nat) (evs : List ScanEvent)
      (rem : List Nat) (idx : Nat),
      ScanEvent.resolved a v ∈ (scanGo env limit fuel cache found evs rem idx).2.2 →
      ScanEvent.resolved a v ∈ evs ∨
        lookupCache (scanGo env limit fuel cache found evs rem idx).1 a = some v := by
  intro fuel
  induction fuel with
  | zero => intro cache found evs rem idx h; exact Or.inl h
  | succ fuel ih =>
    intro cache found evs rem idx h
    rw [scanGo] at h ⊢
    dsimp only at h ⊢
    split at h
    · rename_i hb
      rw [if_pos hb]
      exact Or.inl h
    · rename_i hb
      rw [if_neg hb]
      split at h
      · rename_i hcond
        rw [if_pos hcond]
        rcases ih _ _ _ _ _ h with h1 | h1
        · rcases foldl_probeOne_resolved env _ _ h1 with h2 | h2
          · exact Or.inl h2
          · exact Or.inr (scanGo_cache_preserve env limit fuel _ _ _ _ _ h2)
        · exact Or.inr h1
      · rename_i hcond
        rw [if_neg hcond]
        exact foldl_probeOne_resolved env _ _ h

theorem scanGo_resolved_of_cached (env : Env) (limit : Nat) {a : Nat} {u v : Bool} :
    ∀ (fuel : Nat) (cache : List (Nat × Bool)) (found : List Nat) (evs : List ScanEvent)
      (rem : List Nat) (idx : Nat),
      lookupCache cache a = some u →
      ScanEvent.resolved a v ∈ (scanGo env limit fuel cache found evs rem idx).2.2 →
      ScanEvent.resolved a v ∈ evs := by
  intro fuel
  induction fuel with
  | zero => intro cache found evs rem idx _ h; exact h
  | succ fuel ih =>
    intro cache found evs rem idx hc h
    rw [scanGo] at h
    dsimp only at h
    split at h
    · exact h
    · split at h
      · exact foldl_probeOne_resolved_of_cached env _ _ hc
          (ih _ _ _ _ _ (foldl_probeOne_cache_preserve env _ _ hc) h)
      · exact foldl_probeOne_resolved_of_cached env _ _ hc h

theorem scanGo_excluded (env : Env) (limit : Nat) {a : Nat} :
    ∀ (fuel : Nat) (cache : List (Nat × Bool)) (found : List Nat) (evs : List ScanEvent)
      (rem : List Nat) (idx : Nat),
      lookupCache cache a = some false → a ∉ found →
      a ∉ (scanGo env limit fuel cache found evs rem idx).2.1 ∧
        lookupCache (scanGo env limit fuel cache found evs rem idx).1 a = some false := by
  intro fuel
  induction fuel with
  | zero => intro cache found evs rem idx hc hf; exact ⟨hf, hc⟩
  | succ fuel ih =>
    intro cache found evs rem idx hc hf
    rw [scanGo]
    dsimp only
    split
    · exact ⟨hf, hc⟩
    · split
      · obtain ⟨hf1, hc1⟩ := foldl_probeOne_excluded env _ (cache, found, evs) hc hf
        exact ih _ _ _ _ _ hc1 hf1
      · exact foldl_probeOne_excluded env _ (cache, found, evs) hc hf

theorem scanGo_events_len (env : Env) (limit : Nat) :
    ∀ (fuel : Nat) (cache : List (Nat × Bool)) (found : List Nat) (evs : List ScanEvent)
      (rem : List Nat) (idx : Nat),
      ((scanGo env limit fuel cache found evs rem idx).2.2).length ≤
        evs.length + min rem.length (overallCap - idx) := by
  intro fuel
  induction fuel with
  | zero => intro cache found evs rem idx; exact Nat.le_add_right _ _
  | succ fuel ih =>
    intro cache found evs rem idx
    rw [scanGo]
    set k := min concurrency (overallCap - idx) with hkdef
    dsimp only
    have hbl : (rem.take k).length = min k rem.length := List.length_take k rem
    have hk : k ≤ overallCap - idx := Nat.min_le_right _ _
    have hev : ((rem.take k).foldl (probeOne env) (cache, found, evs)).2.2.length =
        evs.length + (rem.take k).length := foldl_probeOne_events_len env _ _
    split
    · exact Nat.le_add_right _ _
    · split
      · rename_i hb hcond
        obtain ⟨h1, h2, h3⟩ := hcond
        have hdl : (rem.drop k).length = rem.length - k := List.length_drop k rem
        have hkr : rem.length - k ≠ 0 := by
          intro hz
          apply h2
          rw [List.isEmpty_iff, ← List.length_eq_zero, hdl, hz]
        refine le_trans (ih _ _ _ _ _) ?_
        rw [hev, hdl]
        omega
      · rw [hev]
        omega

theorem scanGo_exhausts (env : Env) (limit : Nat) :
    ∀ (fuel : Nat) (cache : List (Nat × Bool)) (found : List Nat) (evs : List ScanEvent)
      (rem : List Nat) (idx : Nat), rem.length ≤ fuel →
      ((scanGo env limit fuel cache found evs rem idx).2.1).length < limit →
      ((scanGo env limit fuel cache found evs rem idx).2.2).length =
        evs.length + min rem.length (overallCap - idx) := by
  intro fuel
  induction fuel with
  | zero =>
    intro cache found evs rem idx hfu _
    have : rem.length = 0 := Nat.le_zero.mp hfu
    simp [scanGo, this]
  | succ fuel ih =>
    intro cache found evs rem idx hfu hfin
    rw [scanGo] at hfin ⊢
    set k := min concurrency (overallCap - idx) with hkdef
    dsimp only at hfin ⊢
    have hbl : (rem.take k).length = min k rem.length := List.length_take k rem
    have hk : k ≤ overallCap - idx := Nat.min_le_right _ _
    have hc6 : concurrency = 6 := rfl
    have hev : ((rem.take k).foldl (probeOne env) (cache, found, evs)).2.2.length =
        evs.length + (rem.take k).length := foldl_probeOne_events_len env _ _
    split at hfin
    · rename_i hb
      rw [if_pos hb]
      dsimp only
      have hbz : (rem.take k).length = 0 := by
        rw [List.length_eq_zero, ← List.isEmpty_iff]
        exact hb
      omega
    · rename_i hb
      rw [if_neg hb]
      have hdl : (rem.drop k).length = rem.length - k := List.length_drop k rem
      have hbnz : (rem.take k).length ≠ 0 := by
        intro hz
        apply hb
        rw [List.isEmpty_iff, ← List.length_eq_zero]
        exact hz
      split at hfin
      · rename_i hcond
        rw [if_pos hcond]
        obtain ⟨h1, h2, h3⟩ := hcond
        have hkr : rem.length - k ≠ 0 := by
          intro hz
          apply h2
          rw [List.isEmpty_iff, ← List.length_eq_zero, hdl, hz]
        have hfu2 : (rem.drop k).length ≤ fuel := by
          rw [hdl]
          omega
        rw [ih _ _ _ _ _ hfu2 hfin, hev, hdl]
        omega
      · rename_i hcond
        rw [if_neg hcond]
        by_cases hdrop : (rem.drop k).isEmpty = true
        · have hre : rem.length - k = 0 := by
            rw [← hdl, List.length_eq_zero, ← List.isEmpty_iff]
            exact hdrop
          rw [hev]
          omega
        · have hcap : ¬ idx + (rem.take k).length < overallCap := by
            intro h
            exact hcond ⟨hfin, hdrop, h⟩
          rw [hev]
          omega

theorem mergeStage_state (s : IdlerState) (env : Env) (b0 : List Badge) :
    (mergeStage s env b0).1.currentIds = s.currentIds ∧
    (mergeStage s env b0).1.targetParallel = s.targetParallel ∧
    (mergeStage s env b0).1.broadMode = s.broadMode := by
  unfold mergeStage
  dsimp only
  split_ifs <;> exact ⟨rfl, rfl, rfl⟩

theorem broadFlag_state (s1 : IdlerState) (direct : List Nat) :
    (broadFlag s1 direct).currentIds = s1.currentIds ∧
    (broadFlag s1 direct).targetParallel = s1.targetParallel := by
  unfold broadFlag
  split <;> exact ⟨rfl, rfl⟩

theorem broadFlag_broadMode (s1 : IdlerState) (direct : List Nat) :
    (broadFlag s1 direct).broadMode = (s1.broadMode || direct.isEmpty) := by
  unfold broadFlag
  split
  · rename_i h
    simp [h.1, h.2]
  · rename_i h
    rw [not_and_or, not_not] at h
    rcases h with h | h
    · have hd : direct.isEmpty = false := by simpa using h
      simp [hd]
    · simp [h]

theorem scanAll_state {s : IdlerState} {env : Env} {limit : Nat} {s' : IdlerState}
    {found : List Nat} {evs : List ScanEvent}
    (h : scanAllCardCapable s env limit = .ok (s', found, evs)) :
    s'.currentIds = s.currentIds ∧ s'.targetParallel = s.targetParallel := by
  unfold scanAllCardCapable at h
  cases hf : fetchOwned s.hasSteamId env.ownedResp with
  | error e => rw [hf] at h; cases h
  | ok owned =>
    rw [hf] at h
    dsimp only at h
    split at h
    · cases h
      exact ⟨rfl, rfl⟩
    · cases h
      exact ⟨rfl, rfl⟩

theorem discover_state (s : IdlerState) (env : Env) :
    (discoverGames s env).1.currentIds = s.currentIds ∧
    (discoverGames s env).1.targetParallel = s.targetParallel := by
  unfold discoverGames
  obtain ⟨hm1, hm2, _⟩ := mergeStage_state s env []
  split
  · rename_i hk
    cases hf : fetchBadges s.hasSteamId env.badgesResp with
    | error e => exact ⟨rfl, rfl⟩
    | ok badges0 =>
      obtain ⟨hn1, hn2, _⟩ := mergeStage_state s env badges0
      obtain ⟨hb1, hb2⟩ := broadFlag_state (mergeStage s env badges0).1 (directOf s env badges0)
      dsimp only
      split
      · cases hsc : scanAllCardCapable (broadFlag (mergeStage s env badges0).1
          (directOf s env badges0)) env (s.targetParallel - (directOf s env badges0).length) with
        | error e =>
          dsimp only
          constructor
          · rw [hb1, hn1]
          · rw [hb2, hn2]
        | ok r =>
          obtain ⟨s3, extra, evs⟩ := r
          dsimp only
          obtain ⟨hs1, hs2⟩ := scanAll_state hsc
          constructor
          · rw [hs1, hb1, hn1]
          · rw [hs2, hb2, hn2]
      · constructor
        · rw [hb1, hn1]
        · rw [hb2, hn2]
  · exact ⟨rfl, rfl⟩

theorem detLeB_total (a b : Detailed) : detLeB a b = true ∨ detLeB b a = true := by
  unfold detLeB
  by_cases h1 : hKey a = hKey b
  · rw [if_pos h1, if_pos h1.symm]
    by_cases h2 : rKey a = rKey b
    · rw [if_pos h2, if_pos h2.symm]
      simp only [decide_eq_true_eq]
      omega
    · rw [if_neg h2, if_neg (Ne.symm h2)]
      simp only [decide_eq_true_eq]
      omega
  · rw [if_neg h1, if_neg (Ne.symm h1)]
    simp only [decide_eq_true_eq]
    rcases lt_or_gt_of_ne h1 with h | h
    · exact Or.inr h
    · exact Or.inl h

theorem detLeB_trans (a b c : Detailed) (hab : detLeB a b = true) (hbc : detLeB b c = true) :
    detLeB a c = true := by
  unfold detLeB at hab hbc ⊢
  by_cases h1 : hKey a = hKey b <;> by_cases h2 : hKey b = hKey c
  · rw [if_pos h1] at hab
    rw [if_pos h2] at hbc
    rw [if_pos (h1.trans h2)]
    by_cases r1 : rKey a = rKey b <;> by_cases r2 : rKey b = rKey c
    · rw [if_pos r1] at hab
      rw [if_pos r2] at hbc
      rw [if_pos (r1.trans r2)]
      simp only [decide_eq_true_eq] at hab hbc ⊢
      omega
    · rw [if_pos r1] at hab
      rw [if_neg r2] at hbc
      rw [if_neg (by rw [r1]; exact r2)]
      simp only [decide_eq_true_eq] at hbc ⊢
      omega
    · rw [if_neg r1] at hab
      rw [if_pos r2] at hbc
      rw [if_neg (fun h => r1 (h.trans r2.symm))]
      simp only [decide_eq_true_eq] at hab ⊢
      omega
    · rw [if_neg r1] at hab
      rw [if_neg r2] at hbc
      simp only [decide_eq_true_eq] at hab hbc
      rw [if_neg (by intro h; omega)]
      simp only [decide_eq_true_eq]
      omega
  · rw [if_neg h2] at hbc
    simp only [decide_eq_true_eq] at hbc
    rw [if_neg (by rw [h1]; exact h2)]
    simp only [decide_eq_true_eq]
    rw [h1]
    exact hbc
  · rw [if_neg h1] at hab
    simp only [decide_eq_true_eq] at hab
    rw [if_neg (fun h => h1 (h.trans h2.symm))]
    simp only [decide_eq_true_eq]
    rw [← h2]
    exact hab
  · rw [if_neg h1] at hab
    rw [if_neg h2] at hbc
    simp only [decide_eq_true_eq] at hab hbc
    have hca : hKey c < hKey a := lt_trans hbc hab
    rw [if_neg (by intro h; rw [h] at hca; exact lt_irrefl _ hca)]
    simp only [decide_eq_true_eq]
    exact hca

theorem specHours_eq_of_hKey {a b : Detailed} (ha : nonnegHours a) (hb : nonnegHours b)
    (h1 : hKey a = hKey b) : specHours a = specHours b := by
  cases hha : a.hours with
  | none =>
    cases hhb : b.hours with
    | none => simp [specHours, hha, hhb]
    | some qb =>
      exfalso
      have hq := hb qb hhb
      rw [hKey, hKey, hha, hhb] at h1
      simp only [Option.getD_some, Option.getD_none] at h1
      rw [← h1] at hq
      norm_num at hq
  | some qa =>
    cases hhb : b.hours with
    | none =>
      exfalso
      have hq := ha qa hha
      rw [hKey, hKey, hha, hhb] at h1
      simp only [Option.getD_some, Option.getD_none] at h1
      rw [h1] at hq
      norm_num at hq
    | some qb =>
      rw [hKey, hKey, hha, hhb] at h1
      simp only [Option.getD_some] at h1
      simp [specHours, hha, hhb, h1]

theorem specHours_lt_of_hKey {a b : Detailed} (hb : nonnegHours b)
    (h1 : hKey b < hKey a) : specHours b < specHours a := by
  cases hha : a.hours with
  | none =>
    exfalso
    rw [hKey, hKey, hha] at h1
    simp only [Option.getD_none] at h1
    cases hhb : b.hours with
    | none =>
      rw [hhb] at h1
      simp only [Option.getD_none] at h1
      exact lt_irrefl _ h1
    | some qb =>
      have hq := hb qb hhb
      rw [hhb] at h1
      simp only [Option.getD_some] at h1
      have : (0 : ℚ) < -1 := lt_of_le_of_lt hq h1
      norm_num at this
  | some qa =>
    cases hhb : b.hours with
    | none =>
      simp only [specHours, hha, hhb]
      exact WithBot.bot_lt_coe qa
    | some qb =>
      rw [hKey, hKey, hha, hhb] at h1
      simp only [Option.getD_some] at h1
      simp only [specHours, hha, hhb]
      exact_mod_cast h1

theorem detLe_to_specLe {a b : Detailed} (ha : nonnegHours a) (hb : nonnegHours b)
    (h : detLeB a b = true) : specLe a b := by
  unfold detLeB at h
  by_cases h1 : hKey a = hKey b
  · rw [if_pos h1] at h
    refine Or.inr ⟨specHours_eq_of_hKey ha hb h1, ?_⟩
    by_cases h2 : rKey a = rKey b
    · rw [if_pos h2] at h
      simp only [decide_eq_true_eq] at h
      exact Or.inr ⟨h2, h⟩
    · rw [if_neg h2] at h
      simp only [decide_eq_true_eq] at h
      exact Or.inl h
  · rw [if_neg h1] at h
    simp only [decide_eq_true_eq] at h
    exact Or.inl (specHours_lt_of_hKey hb h)

theorem keepPred_eq_false_iff {ever rem : List Nat} {id : Nat} :
    keepPred ever rem id = false ↔ id ∈ ever ∧ id ∉ rem := by
  simp [keepPred]

theorem keepPred_eq_true_of {ever rem : List Nat} {id : Nat}
    (h1 : id ∉ ever) : keepPred ever rem id = true := by
  simp [keepPred, h1]

theorem effTarget_pos (t : Nat) : 0 < effTarget t := by
  unfold effTarget
  split <;> omega

theorem refresh_noop_of_guard {s : IdlerState} {env : Env}
    (hg : s.hasApiKey = false ∨ s.hasSteamId = false) :
    refreshBadgeStatus s env = s := by
  unfold refreshBadgeStatus
  rw [if_pos hg]

theorem refresh_noop_of_error {s : IdlerState} {env : Env} {e : String}
    (hf : fetchBadges s.hasSteamId env.badgesResp = Except.error e) :
    refreshBadgeStatus s env = s := by
  unfold refreshBadgeStatus
  split
  · rfl
  · rw [hf]

theorem refreshTopUp_shape (s1 : IdlerState) (env : Env) (needed : Nat)
    (h : 0 < needed) :
    ∃ extra : List Nat,
      (refreshTopUp s1 env needed).currentIds = List.foldl setAdd s1.currentIds extra ∧
      extra.length ≤ needed := by
  refine ⟨chooseNextGames (discoverGames s1 env).1.currentIds (discoverGames s1 env).2.1
    needed, ?_, chooseNextGames_length h⟩
  unfold refreshTopUp
  dsimp only
  congr 1
  exact (discover_state s1 env).1

/-- The removal-then-top-up shape of a refresh cycle's Active Set: whatever the
top-up contributed is folded (as set insertion) onto the filtered survivors,
and its size never exceeds the remaining quota. -/
theorem refresh_currentIds_shape (s : IdlerState) (env : Env)
    (hg : ¬(s.hasApiKey = false ∨ s.hasSteamId = false))
    {badges : List Badge} (hf : fetchBadges s.hasSteamId env.badgesResp = Except.ok badges) :
    ∃ extra : List Nat,
      (refreshBadgeStatus s env).currentIds =
        List.foldl setAdd
          (s.currentIds.filter
            (keepPred (updateEver s.everRemaining badges) (remainingList badges))) extra ∧
      extra.length ≤ effTarget s.targetParallel -
        (s.currentIds.filter
          (keepPred (updateEver s.everRemaining badges) (remainingList badges))).length := by
  unfold refreshBadgeStatus
  rw [if_neg hg, hf]
  dsimp only
  split
  · rename_i hlt
    exact refreshTopUp_shape _ env _ (by omega)
  · exact ⟨[], by simp, by simp⟩

/-! ## Concrete inputs used by the claim-level theorems -/

/-- A badge entry with one remaining card drop. -/
def onePosBadge (i : Nat) : Option Badge :=
  some { appid := i, cards_remaining := some 1 }

/-- An environment where every network source fails at transport level. -/
def deadEnv : Env where
  badgesResp := .transportError
  ownedResp := .transportError
  communityPages := fun _ => .transportError
  probeResp := fun _ => .transportError
  diskCacheExists := false
  diskCache := []
  manualIds := []

def c1State : IdlerState :=
  { currentIds := [10, 20, 30], everRemaining := [10, 20, 30], targetParallel := 3 }

def c1Env : Env := { deadEnv with badgesResp := .payload (some [onePosBadge 10]) }

def c2Env : Env :=
  { deadEnv with badgesResp := .payload (some (((List.range 33).map (· + 1)).map onePosBadge)) }

def c2State : IdlerState := { targetParallel := 33 }

/-! ## Claim theorems -/

/-- Claim C1 (confirmed).  During a refresh cycle an id is removed from the
Active Set only if it is in the Ever-Rewarded Set (`everRemaining`, already
including this cycle's fresh positive observations — but a removed id cannot
be among those, so membership in the prior set follows) and absent from the
positive-remaining set built from the freshly fetched counts; an id never yet
observed with a positive remaining count is never removed by a refresh on
missing data alone. -/
theorem refreshRemovesOnlyConfirmedExhausted (s : IdlerState) (env : Env) (id : Nat) :
    (id ∈ s.currentIds → id ∉ (refreshBadgeStatus s env).currentIds →
      id ∈ s.everRemaining ∧ id ∉ refreshPositives s env) ∧
    (id ∈ s.currentIds → id ∉ s.everRemaining → id ∉ refreshPositives s env →
      id ∈ (refreshBadgeStatus s env).currentIds) := by
  by_cases hg : s.hasApiKey = false ∨ s.hasSteamId = false
  · rw [refresh_noop_of_guard hg]
    exact ⟨fun h1 h2 => absurd h1 h2, fun h1 _ _ => h1⟩
  · cases hf : fetchBadges s.hasSteamId env.badgesResp with
    | error e =>
      rw [refresh_noop_of_error hf]
      exact ⟨fun h1 h2 => absurd h1 h2, fun h1 _ _ => h1⟩
    | ok badges =>
      obtain ⟨extra, hshape, _⟩ := refresh_currentIds_shape s env hg hf
      have hpos : refreshPositives s env = remainingList badges := by
        unfold refreshPositives
        rw [hf]
      rw [hshape, hpos]
      constructor
      · intro h1 h2
        have hnc : id ∉ s.currentIds.filter
            (keepPred (updateEver s.everRemaining badges) (remainingList badges)) :=
          fun hmem => h2 (mem_foldl_setAdd extra _ hmem)
        have hkp : keepPred (updateEver s.everRemaining badges) (remainingList badges) id
            = false := by
          cases hkb : keepPred (updateEver s.everRemaining badges) (remainingList badges) id with
          | false => rfl
          | true => exact absurd (List.mem_filter.mpr ⟨h1, hkb⟩) hnc
        obtain ⟨hev, hnr⟩ := keepPred_eq_false_iff.mp hkp
        refine ⟨?_, hnr⟩
        rcases mem_updateEver.mp hev with h | h
        · exact h
        · exact absurd h hnr
      · intro h1 h2 h3
        have hev : id ∉ updateEver s.everRemaining badges := by
          rw [mem_updateEver]
          rintro (h | h)
          · exact h2 h
          · exact h3 h
        exact mem_foldl_setAdd extra _ (List.mem_filter.mpr ⟨h1, keepPred_eq_true_of hev⟩)

/-- Witness for C1, on the spec's own scenario: Active `{10,20,30}`,
Ever-Rewarded `{10,20,30}`, fresh positive set `{10}` — the refresh removes
`20` (it had been rewarded before and is now absent). -/
theorem refreshRemovesOnlyConfirmedExhausted_witness :
    20 ∈ c1State.currentIds ∧
    20 ∉ (refreshBadgeStatus c1State c1Env).currentIds ∧
    (20 ∈ c1State.everRemaining ∧ 20 ∉ refreshPositives c1State c1Env) :=
  ⟨by decide, by decide,
    (refreshRemovesOnlyConfirmedExhausted c1State c1Env 20).1 (by decide) (by decide)⟩

/-- Claim C2, counterexample.  With `targetParallel = 33` and 33 direct hits,
`start()` puts 33 ids into the Active Set — more than
`min(targetParallel, displayLimit) = 32`.  The display limit only truncates
the `gamesPlayed` argument, never the set itself. -/
theorem startActiveSetExceedsDisplayLimit :
    ¬ (((start c2State c2Env).1.currentIds).length ≤ min c2State.targetParallel 32) := by
  decide

/-- Claim C2 (corrected).  The Active Set is bounded by the *effective target
parallelism alone* (`targetParallel`, defaulting to 20 when configured as 0):
`start()` from an empty set establishes the bound, and every refresh cycle
preserves it.  The display limit 32 does not bound the set. -/
theorem activeSetBoundedByTarget :
    (∀ (s : IdlerState) (env : Env), s.currentIds = [] →
      ((start s env).1.currentIds).length ≤ effTarget s.targetParallel) ∧
    (∀ (s : IdlerState) (env : Env),
      s.currentIds.length ≤ effTarget s.targetParallel →
      ((refreshBadgeStatus s env).currentIds).length ≤ effTarget s.targetParallel) := by
  constructor
  · intro s env hemp
    unfold start
    split
    · simp [hemp]
    · dsimp only
      obtain ⟨hd1, hd2⟩ := discover_state { s with running := true } env
      have hcur : (discoverGames { s with running := true } env).1.currentIds = [] := by
        rw [hd1]
        exact hemp
      split
      · simp [hcur]
      · dsimp only [startLoopModel]
        refine le_trans (length_foldl_setAdd _ _) ?_
        rw [hcur]
        simp only [List.length_nil, Nat.zero_add]
        refine le_trans (chooseNextGames_length (effTarget_pos _)) ?_
        rw [hd2]
  · intro s env hbound
    by_cases hg : s.hasApiKey = false ∨ s.hasSteamId = false
    · rw [refresh_noop_of_guard hg]
      exact hbound
    · cases hf : fetchBadges s.hasSteamId env.badgesResp with
      | error e =>
        rw [refresh_noop_of_error hf]
        exact hbound
      | ok badges =>
        obtain ⟨extra, hsh, hle⟩ := refresh_currentIds_shape s env hg hf
        rw [hsh]
        have h1 := length_foldl_setAdd extra (s.currentIds.filter
          (keepPred (updateEver s.everRemaining badges) (remainingList badges)))
        have h2 := List.length_filter_le
          (keepPred (updateEver s.everRemaining badges) (remainingList badges)) s.currentIds
        omega

/-- Witness for the corrected C2 bound at a concrete run. -/
theorem activeSetBoundedByTarget_witness :
    ((start ({ } : IdlerState) c2Env).1.currentIds).length ≤
      effTarget ({ } : IdlerState).targetParallel :=
  activeSetBoundedByTarget.1 { } c2Env rfl

/-- Claim C3, counterexample.  An HTTP failure (or a rejected fetch) in the
numeric reward-count feed does *not* yield an empty sequence: `fetchBadges`
throws (`Except.error`), and so does `fetchOwned`.  The claim's "return an
empty sequence to its caller rather than throwing" is false for these two
adapters. -/
theorem badgeFetchFailureThrows :
    fetchBadges true (FetchResult.httpError 500) = Except.error "GetBadges HTTP 500" ∧
    fetchBadges true FetchResult.transportError ≠ Except.ok [] ∧
    fetchOwned true FetchResult.transportError = Except.error "fetch rejected" := by
  refine ⟨rfl, ?_, rfl⟩
  intro h
  exact Except.noConfusion h

/-- Claim C3 (corrected).  Malformed payloads do degrade to an empty sequence in
all three adapters, and the document feed also swallows transport failure;
but a transport/HTTP failure in the numeric reward-count feed or the owned
catalog throws, and the exception is contained one level up: `discoverGames`
catches it and yields an empty candidate list with the state untouched, and
`refreshBadgeStatus` catches it and leaves the cycle a no-op. -/
theorem rewardSourceErrorContainment :
    (∀ b : Bool, fetchBadges b (FetchResult.payload none) = Except.ok []) ∧
    (∀ b : Bool, fetchOwned b (FetchResult.payload none) = Except.ok []) ∧
    (∀ pages : Nat → FetchResult (List Badge), pages 1 = FetchResult.transportError →
      fetchCommunityBadges true pages = []) ∧
    (∀ (s : IdlerState) (env : Env) (e : String), s.hasApiKey = true →
      fetchBadges s.hasSteamId env.badgesResp = Except.error e →
      (discoverGames s env).2.1 = [] ∧ (discoverGames s env).1 = s) ∧
    (∀ (s : IdlerState) (env : Env) (e : String),
      fetchBadges s.hasSteamId env.badgesResp = Except.error e →
      refreshBadgeStatus s env = s) := by
  refine ⟨?_, ?_, ?_, ?_, ?_⟩
  · intro b
    cases b <;> rfl
  · intro b
    cases b <;> rfl
  · intro pages hp
    rw [fetchCommunityBadges, if_pos rfl, cbLoop, if_neg (by omega), hp]
  · intro s env e hk herr
    unfold discoverGames
    rw [if_pos hk, herr]
    exact ⟨rfl, rfl⟩
  · intro s env e herr
    unfold refreshBadgeStatus
    split
    · rfl
    · rw [herr]

/-- Witness for the corrected C3, on concrete dead-network inputs. -/
theorem rewardSourceErrorContainment_witness :
    fetchBadges true (FetchResult.payload none) = Except.ok [] ∧
    fetchCommunityBadges true (fun _ => FetchResult.transportError) = [] ∧
    (discoverGames { } deadEnv).2.1 = [] ∧
    refreshBadgeStatus { } deadEnv = { } := by
  obtain ⟨h1, _, h3, h4, h5⟩ := rewardSourceErrorContainment
  exact ⟨h1 true, h3 _ rfl, (h4 { } deadEnv "fetch rejected" rfl rfl).1,
    h5 { } deadEnv "fetch rejected" rfl⟩

/-- Claim C5 (confirmed).  The sorted direct hits are a permutation of the input
ordered exactly as the spec says: secondary signal (hours on record)
descending with a missing signal ranked lowest, then remaining count
descending, then application id ascending.  The comparator encodes a missing
signal as `-1`, so the spec reading needs the parsed hours to be nonnegative —
which the source regex (an unsigned decimal) guarantees. -/
theorem directHitsSortedBySpecOrder (l : List Detailed)
    (h : ∀ d ∈ l, nonnegHours d) :
    (sortDetailed l).Perm l ∧ (sortDetailed l).Pairwise specLe := by
  constructor
  · exact List.perm_insertionSort detLe l
  · haveI : IsTotal Detailed detLe := ⟨detLeB_total⟩
    haveI : IsTrans Detailed detLe := ⟨detLeB_trans⟩
    have hs : (sortDetailed l).Pairwise detLe := List.sorted_insertionSort detLe l
    refine hs.imp_of_mem ?_
    intro a b hma hmb hab
    have hpm := List.perm_insertionSort detLe l
    exact detLe_to_specLe (h a (hpm.mem_iff.mp hma)) (h b (hpm.mem_iff.mp hmb)) hab

def c5List : List Detailed :=
  [⟨730, some 3, none⟩, ⟨20, some 2, some 5⟩, ⟨10, some 2, some 5⟩]

/-- Witness for C5 on a small concrete list (ties in hours and remaining are
broken by ascending appid; the missing-hours record sorts last). -/
theorem directHitsSortedBySpecOrder_witness :
    (sortDetailed c5List).Perm c5List ∧ (sortDetailed c5List).Pairwise specLe :=
  directHitsSortedBySpecOrder c5List (by
    intro d hd q hq
    fin_cases hd <;> simp_all <;> norm_num [← hq])

/-- Claim C6, counterexample.  After `stop()`, the connectivity-poll timer is
still armed and its next tick still initiates a manual reconnect
(`client.logOn`), so "disarms all periodic timers … after which no further
scheduler or reconnect activity is initiated" is false. -/
def c6State : IdlerState :=
  { currentIds := [10, 20], running := true, refreshTimerArmed := true,
    connectivityTimerArmed := true, connected := false, connecting := false,
    hasRefreshToken := true }

theorem stopLeavesConnectivityMonitorArmed :
    (stop c6State).1.connectivityTimerArmed = true ∧
    (connectivityTick (stop c6State).1).2 = [Effect.logOnAttempt] :=
  ⟨rfl, rfl⟩

/-- Claim C6 (corrected).  `stop()` synchronously disarms the refresh timer (and
the unused restart monitor), empties the Active Set, and applies the empty
declare-active side effect — but it leaves the connectivity-poll timer armed,
so reconnect activity can still be initiated afterwards. -/
theorem stopClearsRefreshTimerOnly (s : IdlerState) :
    (stop s).1.running = false ∧
    (stop s).1.refreshTimerArmed = false ∧
    (stop s).1.restartTimerArmed = false ∧
    (stop s).1.currentIds = [] ∧
    (stop s).2 = [Effect.gamesPlayed []] ∧
    (stop s).1.connectivityTimerArmed = s.connectivityTimerArmed ∧
    (s.connectivityTimerArmed = true → s.connected = false → s.connecting = false →
      s.hasRefreshToken = true →
      (connectivityTick (stop s).1).2 = [Effect.logOnAttempt]) := by
  refine ⟨rfl, rfl, rfl, rfl, rfl, rfl, ?_⟩
  intro h1 h2 h3 h4
  unfold connectivityTick manualReconnect stop
  simp [h1, h2, h3, h4]

/-- Witness for the corrected C6. -/
theorem stopClearsRefreshTimerOnly_witness :
    (connectivityTick (stop c6State).1).2 = [Effect.logOnAttempt] :=
  (stopClearsRefreshTimerOnly c6State).2.2.2.2.2.2 rfl rfl rfl rfl

/-- Claim C7 (confirmed).  The `loggedOn` handler of a successful manual
reconnect re-declares the held Active Set via `applyIdling` — the declared
list is computed from the unchanged `currentIds` exactly as before the drop —
and touches no discovery state: `currentIds`, `everRemaining`, `broadMode`,
the capability cache and the pending-discovery flag are all left as they
were, and no discovery or ranking is invoked. -/
theorem reconnectReappliesActiveSetVerbatim (s : IdlerState) :
    (manualReconnectSuccess s).1.currentIds = s.currentIds ∧
    (manualReconnectSuccess s).1.everRemaining = s.everRemaining ∧
    (manualReconnectSuccess s).1.broadMode = s.broadMode ∧
    (manualReconnectSuccess s).1.storeCategoryCache = s.storeCategoryCache ∧
    (manualReconnectSuccess s).1.pendingPostCookieDiscovery = s.pendingPostCookieDiscovery ∧
    (manualReconnectSuccess s).2 = [Effect.gamesPlayed (idleList s.currentIds)] :=
  ⟨rfl, rfl, rfl, rfl, rfl, rfl⟩

/-- Claim C8 (code bug).  The spec demands that a second refresh can never begin
while one is in flight ("synchronously prevented").  The interval callback in
`startLoop` is `console.log(...); this.refreshBadgeStatus();` — the async call
is neither awaited nor guarded by any flag (the class defines no reentrancy
flag for the refresh), so a tick that fires while a previous refresh body is
still awaiting its network fetches simply starts a second concurrent body. -/
theorem refreshTickHasNoReentrancyGuard :
    (onRefreshTick { inFlight := 1 }).inFlight = 2 := rfl

def c4Env : Env :=
  { deadEnv with badgesResp := .payload (some (((List.range 5).map (· + 1)).map onePosBadge)) }

def c4State : IdlerState := { targetParallel := 20 }

/-- The badges `fetchBadges` decodes from `c4Env`. -/
def c4Decoded : List Badge :=
  (((List.range 5).map (· + 1)).map onePosBadge).filterMap id

/-- Claim C4, counterexample.  Discovery yields 5 direct hits — fewer than the
target parallelism of 20 — yet broad mode is *not* entered and no probe of the
owned catalog happens: the latch only flips when the direct hits are zero. -/
theorem broadScanSkippedWhenDirectHitsNonzero :
    ((discoverGames c4State c4Env).2.1).length < c4State.targetParallel ∧
    (discoverGames c4State c4Env).2.2.1 = false ∧
    (discoverGames c4State c4Env).1.broadMode = false := by
  decide

/-- Claim C4 (corrected).  Broad mode is entered when discovery yields *zero*
direct hits (and, once set, persists); the broad scan then runs exactly when
the state is in broad mode and the direct hits are fewer than
`targetParallel`.  The scan itself probes the owned catalog (ordered
never-played, low-playtime, rest — by construction in `scanAllCardCapable`)
through the capability cache: an id cached at scan entry is never re-probed,
at most `min |ordered| overallCap` ids are processed, and if the scan ends
with fewer capability-positive ids than the quota then the whole
`min |ordered| overallCap` budget was exhausted. -/
theorem broadModeEntryAndScanBudget :
    (∀ (s : IdlerState) (env : Env) (badges0 : List Badge), s.hasApiKey = true →
      fetchBadges s.hasSteamId env.badgesResp = Except.ok badges0 →
      ((discoverGames s env).2.2.1 = true ↔
        ((s.broadMode = true ∨ directOf s env badges0 = []) ∧
          (directOf s env badges0).length < s.targetParallel))) ∧
    (∀ (env : Env) (limit : Nat) (cache : List (Nat × Bool)) (rem : List Nat),
      ((scanGo env limit rem.length cache [] [] rem 0).2.2).length ≤ min rem.length overallCap) ∧
    (∀ (env : Env) (limit : Nat) (cache : List (Nat × Bool)) (rem : List Nat),
      ((scanGo env limit rem.length cache [] [] rem 0).2.1).length < limit →
      ((scanGo env limit rem.length cache [] [] rem 0).2.2).length = min rem.length overallCap) ∧
    (∀ (env : Env) (limit : Nat) (cache : List (Nat × Bool)) (rem : List Nat)
        (a : Nat) (u w : Bool), lookupCache cache a = some u →
      ScanEvent.resolved a w ∉ (scanGo env limit rem.length cache [] [] rem 0).2.2) := by
  refine ⟨?_, ?_, ?_, ?_⟩
  · intro s env badges0 hk hf
    unfold discoverGames
    rw [if_pos hk, hf]
    dsimp only
    have hbb := broadFlag_broadMode (mergeStage s env badges0).1 (directOf s env badges0)
    have hmb := (mergeStage_state s env badges0).2.2
    rw [hmb] at hbb
    split
    · rename_i hc
      have hrhs : (s.broadMode = true ∨ directOf s env badges0 = []) ∧
          (directOf s env badges0).length < s.targetParallel := by
        refine ⟨?_, hc.1⟩
        have h2 := hc.2
        rw [hbb] at h2
        rcases Bool.or_eq_true_iff.mp h2 with h | h
        · exact Or.inl h
        · exact Or.inr (List.isEmpty_iff.mp h)
      cases hsc : scanAllCardCapable (broadFlag (mergeStage s env badges0).1
          (directOf s env badges0)) env
          (s.targetParallel - (directOf s env badges0).length) with
      | error e =>
        dsimp only
        exact ⟨fun _ => hrhs, fun _ => rfl⟩
      | ok r =>
        obtain ⟨s3, extra, evs⟩ := r
        dsimp only
        exact ⟨fun _ => hrhs, fun _ => rfl⟩
    · rename_i hc
      dsimp only
      constructor
      · intro h
        cases h
      · intro hr
        exfalso
        apply hc
        refine ⟨hr.2, ?_⟩
        rw [hbb]
        rcases hr.1 with h | h
        · simp [h]
        · simp [h]
  · intro env limit cache rem
    have h := scanGo_events_len env limit rem.length cache [] [] rem 0
    simpa using h
  · intro env limit cache rem hlt
    have h := scanGo_exhausts env limit rem.length cache [] [] rem 0 (le_refl _) hlt
    simpa using h
  · intro env limit cache rem a u w hc hmem
    exact List.not_mem_nil _
      (scanGo_resolved_of_cached env limit rem.length cache [] [] rem 0 hc hmem)

/-- Witness for the corrected C4: the entry condition evaluated on the
five-direct-hit run, and the budget-exhaustion property on a one-element
catalog whose probe fails. -/
theorem broadModeEntryAndScanBudget_witness :
    ((discoverGames c4State c4Env).2.2.1 = true ↔
      ((c4State.broadMode = true ∨ directOf c4State c4Env c4Decoded = []) ∧
        (directOf c4State c4Env c4Decoded).length < c4State.targetParallel)) ∧
    ((scanGo deadEnv 1 [5].length [] [] [] [5] 0).2.2).length = min [5].length overallCap := by
  refine ⟨broadModeEntryAndScanBudget.1 c4State c4Env c4Decoded rfl rfl, ?_⟩
  exact broadModeEntryAndScanBudget.2.2.1 deadEnv 1 [] [5] (by decide)

/-! Event-count helper lemmas for C9/C10. -/

theorem countPersist_append (l1 l2 : List ScanEvent) :
    countPersist (l1 ++ l2) = countPersist l1 + countPersist l2 := by
  simp [countPersist, List.filter_append]

theorem persist_not_mem_of_zero {l : List ScanEvent} (h : countPersist l = 0)
    {c : List (Nat × Bool)} : ScanEvent.persist c ∉ l := by
  intro hm
  have hmem : ScanEvent.persist c ∈ l.filter isPersistEvent :=
    List.mem_filter.mpr ⟨hm, rfl⟩
  rw [countPersist, List.length_eq_zero] at h
  rw [h] at hmem
  cases hmem

/-- The events of a broad scan, `[]` when the owned-catalog fetch threw. -/
def scanEventsOf (s : IdlerState) (env : Env) (limit : Nat) : List ScanEvent :=
  match scanAllCardCapable s env limit with
  | .ok r => r.2.2
  | .error _ => []

def c9Env : Env :=
  { deadEnv with
    ownedResp := .payload (some [⟨101, 0⟩, ⟨102, 0⟩]),
    probeResp := fun _ => .payload (some { success := true, categories := some [29] }) }

def c9Final : IdlerState := { storeCategoryCache := [(101, true), (102, true)] }

def c9Evs : List ScanEvent :=
  [ScanEvent.resolved 101 true, ScanEvent.resolved 102 true,
   ScanEvent.persist [(101, true), (102, true)]]

/-- Claim C9, counterexample.  A scan resolving two fresh probes performs exactly
one on-disk write, and it happens *after* both resolutions — not "immediately
upon resolution"/"on every update".  A crash mid-scan would lose every probe
of the scan. -/
theorem scanPersistsOnceAfterProbes :
    scanEventsOf { } c9Env 20 = c9Evs ∧
    countResolved (scanEventsOf { } c9Env 20) = 2 ∧
    countPersist (scanEventsOf { } c9Env 20) = 1 := by
  decide

/-- Claim C9 (corrected).  A resolved probe's classification is written to the
*in-memory* cache immediately and is still present in the final cache; the
on-disk persist happens at most once per scan, at the very end, and writes
that final cache wholesale. -/
theorem scanCacheImmediatePersistOnce :
    ∀ (s : IdlerState) (env : Env) (limit : Nat) (s' : IdlerState)
      (found : List Nat) (evs : List ScanEvent),
      scanAllCardCapable s env limit = Except.ok (s', found, evs) →
      countPersist evs ≤ 1 ∧
      (∀ c, ScanEvent.persist c ∈ evs → c = s'.storeCategoryCache) ∧
      (∀ a v, ScanEvent.resolved a v ∈ evs →
        lookupCache s'.storeCategoryCache a = some v) := by
  intro s env limit s' found evs h
  unfold scanAllCardCapable at h
  cases hf : fetchOwned s.hasSteamId env.ownedResp with
  | error e =>
    rw [hf] at h
    cases h
  | ok owned =>
    rw [hf] at h
    dsimp only at h
    split at h
    · simp only [Except.ok.injEq, Prod.mk.injEq] at h
      obtain ⟨h1, h2, h3⟩ := h
      subst h1 h2 h3
      refine ⟨by simp [countPersist], ?_, ?_⟩
      · intro c hc
        cases hc
      · intro a v hv
        cases hv
    · simp only [Except.ok.injEq, Prod.mk.injEq] at h
      obtain ⟨h1, h2, h3⟩ := h
      subst h1 h2 h3
      refine ⟨?_, ?_, ?_⟩
      · rw [countPersist_append, scanGo_no_persist]
        simp [countPersist, isPersistEvent]
      · intro c hc
        rcases List.mem_append.mp hc with hc | hc
        · exact absurd hc (persist_not_mem_of_zero (by rw [scanGo_no_persist]; rfl))
        · rcases List.mem_singleton.mp hc with h
          cases h
          rfl
      · intro a v hv
        rcases List.mem_append.mp hv with hv | hv
        · rcases scanGo_resolved env limit _ _ _ _ _ _ hv with h | h
          · cases h
          · exact h
        · cases List.mem_singleton.mp hv

/-- Witness for the corrected C9 on the two-probe run. -/
theorem scanCacheImmediatePersistOnce_witness :
    countPersist c9Evs ≤ 1 ∧
    lookupCache c9Final.storeCategoryCache 101 = some true := by
  have h := scanCacheImmediatePersistOnce { } c9Env 20 c9Final [101, 102] c9Evs (by rfl)
  exact ⟨h.1, h.2.2 101 true (by decide)⟩

def c10Env : Env :=
  { deadEnv with
    ownedResp := .payload (some [⟨101, 0⟩]),
    diskCacheExists := true,
    diskCache := [(101, false)] }

def c10Final : IdlerState := { storeCategoryCache := [(101, false)] }

def c10Evs : List ScanEvent := [ScanEvent.hit 101, ScanEvent.persist [(101, false)]]

/-- Claim C10 (confirmed).  A capability probe whose store request rejects or
returns a non-OK status caches the app as not-capable (`false`) without
adding it to the found list; an id cached `false` is never re-probed, never
enters any scan's capability-positive list, still maps to `false` afterwards,
and every cache snapshot the scan persists carries the `false` entry — so,
with the on-disk cache loaded on the next run, a single transient failure
permanently excludes the app from broad-mode candidates within and across
runs. -/
theorem probeFailureCachedFalsePermanently :
    (∀ (env : Env) (cache : List (Nat × Bool)) (found : List Nat)
        (evs : List ScanEvent) (a : Nat),
      lookupCache cache a = none → env.probeResp a = FetchResult.transportError →
      probeOne env (cache, found, evs) a =
        (cache ++ [(a, false)], found, evs ++ [ScanEvent.resolved a false])) ∧
    (∀ (env : Env) (cache : List (Nat × Bool)) (found : List Nat)
        (evs : List ScanEvent) (a st : Nat),
      lookupCache cache a = none → env.probeResp a = FetchResult.httpError st →
      probeOne env (cache, found, evs) a =
        (cache ++ [(a, false)], found, evs ++ [ScanEvent.resolved a false])) ∧
    (∀ (env : Env) (limit fuel : Nat) (cache : List (Nat × Bool)) (found : List Nat)
        (evs : List ScanEvent) (rem : List Nat) (idx a : Nat),
      lookupCache cache a = some false → a ∉ found →
      a ∉ (scanGo env limit fuel cache found evs rem idx).2.1 ∧
        lookupCache (scanGo env limit fuel cache found evs rem idx).1 a = some false) ∧
    (∀ (s : IdlerState) (env : Env) (limit : Nat) (a : Nat) (s' : IdlerState)
        (f : List Nat) (e : List ScanEvent),
      s.storeCategoryCache = [] → env.diskCacheExists = true →
      lookupCache env.diskCache a = some false →
      scanAllCardCapable s env limit = Except.ok (s', f, e) →
      a ∉ f ∧ (∀ c, ScanEvent.persist c ∈ e → lookupCache c a = some false)) := by
  refine ⟨?_, ?_, ?_, ?_⟩
  · intro env cache found evs a h1 h2
    simp only [probeOne, h1, h2]
    rw [cacheSet_of_none false h1]
  · intro env cache found evs a st h1 h2
    simp only [probeOne, h1, h2]
    rw [cacheSet_of_none false h1]
  · intro env limit fuel cache found evs rem idx a hc hf
    exact scanGo_excluded env limit fuel cache found evs rem idx hc hf
  · intro s env limit a s' f e hsc hde hdc h
    unfold scanAllCardCapable at h
    cases hf : fetchOwned s.hasSteamId env.ownedResp with
    | error er =>
      rw [hf] at h
      cases h
    | ok owned =>
      rw [hf] at h
      dsimp only at h
      split at h
      · simp only [Except.ok.injEq, Prod.mk.injEq] at h
        obtain ⟨h1, h2, h3⟩ := h
        subst h1 h2 h3
        refine ⟨by simp, ?_⟩
        intro c hc
        cases hc
      · rw [hsc, hde] at h
        simp only [List.isEmpty_nil, and_self, if_true] at h
        simp only [Except.ok.injEq, Prod.mk.injEq] at h
        obtain ⟨h1, h2, h3⟩ := h
        subst h1 h2 h3
        refine ⟨(scanGo_excluded env limit _ _ _ _ _ _ hdc (List.not_mem_nil a)).1, ?_⟩
        intro c hc
        rcases List.mem_append.mp hc with hc | hc
        · exact absurd hc (persist_not_mem_of_zero (by rw [scanGo_no_persist]; rfl))
        · cases List.mem_singleton.mp hc
          exact (scanGo_excluded env limit _ _ _ _ _ _ hdc (List.not_mem_nil a)).2

/-- Witness for C10: a dead-network probe caches `7 ↦ false`; with
`101 ↦ false` already on disk, the next run's scan excludes 101 and persists
the `false` entry again. -/
theorem probeFailureCachedFalsePermanently_witness :
    probeOne deadEnv ([], [], []) 7 = ([(7, false)], [], [ScanEvent.resolved 7 false]) ∧
    101 ∉ ([] : List Nat) ∧
    lookupCache [(101, false)] 101 = some false := by
  obtain ⟨h1, _, _, h4⟩ := probeFailureCachedFalsePermanently
  have hh := h4 { } c10Env 20 101 c10Final [] c10Evs rfl rfl (by decide) (by rfl)
  refine ⟨h1 deadEnv [] [] [] 7 rfl rfl, hh.1, ?_⟩
  exact hh.2 [(101, false)] (by simp [c10Evs])

end SteamIdler
